import Mathlib

/-!
The ASO request matcher of caddy-maxmind-asn.

A shallow embedding of `main.go` (package `caddy_maxmind_asn`).

Modelling conventions.

* Go strings are modelled by Lean `String`s, i.e. by sequences of Unicode
  scalar values.  For well-formed UTF-8 this is the same data, and the byte
  operations of the program (`strings.Contains`, the byte searches of
  `net.SplitHostPort`) agree with their rune-wise counterparts, because UTF-8
  is self-synchronising and the searched bytes are ASCII.
* The imported library functions are not part of the repository.  The pure
  ones are transcribed from the Go standard library (`strings.Contains`,
  `strings.ToLower`, `unicode.ToLower` on ASCII, `net.SplitHostPort`, the
  dispatch of `net.ParseIP`); what depends on tables or on the database file
  is a field of `Lib` or the `Reader` argument.
* Logging and the database call are effects; `Match` is modelled by `MatchRun`,
  which returns the boolean together with the list of effects performed.
-/

namespace MaxmindASN

/-! ## Strings -/

/-- Test `strings.HasPrefix` on rune lists: `sub` is an initial segment of `s`. -/
def startsWith : List Char → List Char → Bool
  | _, [] => true
  | [], _ :: _ => false
  | c :: cs, d :: ds => decide (c = d) && startsWith cs ds

/-- Search of `strings.Contains` on rune lists: some position of `s` starts with `sub`. -/
def containsRunes : List Char → List Char → Bool
  | [], sub => startsWith [] sub
  | c :: cs, sub => startsWith (c :: cs) sub || containsRunes cs sub

/-- Go `strings.Contains(s, substr)`: reports whether `substr` is within `s`. -/
def Contains (s substr : String) : Bool :=
  containsRunes s.data substr.data

/-- The parts of the imported libraries that are tables or parsers of their own. -/
structure Lib where
  /-- Go `unicode.To(unicode.LowerCase, r)`, used for runes above `unicode.MaxASCII`. -/
  toLowerCase : Char → Char
  /-- The IPv4 parser behind `net.ParseIP` (input contains a dot before any colon). -/
  parseIPv4 : String → Option (List Nat)
  /-- The IPv6 parser behind `net.ParseIP` (input contains a colon before any dot). -/
  parseIPv6 : String → Option (List Nat)

/-- Go `unicode.ToLower(r)`: ASCII is handled inline, the rest goes through the case table. -/
def unicodeToLower (lib : Lib) (r : Char) : Char :=
  if r.toNat ≤ 127 then
    if 'A'.toNat ≤ r.toNat ∧ r.toNat ≤ 'Z'.toNat then Char.ofNat (r.toNat + ('a'.toNat - 'A'.toNat))
    else r
  else lib.toLowerCase r

/-- Go `strings.ToLower(s)`: `s` with every rune mapped to its lower case. -/
def ToLower (lib : Lib) (s : String) : String :=
  String.mk (s.data.map (unicodeToLower lib))

/-! ## Data model -/

/-- Go `type Record struct`: the decoded database entry. -/
structure Record where
  ASN : Int
  ASO : String
deriving DecidableEq, Repr

/-- The zero value of `Record` (`var record Record`). -/
def Record.zero : Record := { ASN := 0, ASO := "" }

/-- Go `type MaxmindASN struct`, the configured fields (`dbInst` and `logger` are
arguments of `MatchRun`). -/
structure Config where
  DbPath : String
  AllowASOs : List String
  DenyASOs : List String
deriving DecidableEq, Repr

/-- The zero value of the matcher, as created by `new(MaxmindASN)`. -/
def Config.zero : Config := { DbPath := "", AllowASOs := [], DenyASOs := [] }

/-! ## `checkAllowed` -/

/-- The loop `for _, i := range list { if strings.Contains(asoresult, i) { return ... } }`:
true when the loop leaves through its `return`. -/
def rangeContains (asoresult : String) : List String → Bool
  | [] => false
  | i :: rest => if Contains asoresult i then true else rangeContains asoresult rest

/-- Go `func (m *MaxmindASN) checkAllowed(asoresult string) bool`. -/
def checkAllowed (m : Config) (asoresult : String) : Bool :=
  if asoresult = "" then true
  else if m.DenyASOs.length > 0 then
    if rangeContains asoresult m.DenyASOs then false else true
  else if m.AllowASOs.length > 0 then
    if rangeContains asoresult m.AllowASOs then true else false
  else true

/-! ## `UnmarshalCaddyfile` -/

/-- One pass through the body of the `NextBlock` loop: the `switch d.Val()` on the
loaded token `val`, with the loop variable `current` carried in the state. -/
def unmarshalVal (lib : Lib) (st : Config × Nat) (val : String) : Except String (Config × Nat) :=
  if val = "db_path" then .ok (st.1, 1)
  else if val = "allow_asos" then .ok (st.1, 2)
  else if val = "deny_asos" then .ok (st.1, 3)
  else
    match st.2 with
    | 1 => .ok ({ st.1 with DbPath := val }, 0)
    | 2 => .ok ({ st.1 with AllowASOs := st.1.AllowASOs ++ [ToLower lib val] }, st.2)
    | 3 => .ok ({ st.1 with DenyASOs := st.1.DenyASOs ++ [ToLower lib val] }, st.2)
    | _ => .error ("unexpected config parameter " ++ val)

/-- The inner loop `for nesting := d.Nesting(); d.NextBlock(nesting); { ... }` over the
tokens of one block. -/
def unmarshalBlock (lib : Lib) : Config × Nat → List String → Except String (Config × Nat)
  | st, [] => .ok st
  | st, val :: rest =>
    match unmarshalVal lib st val with
    | .ok st1 => unmarshalBlock lib st1 rest
    | .error e => .error e

/-- The outer loop `for d.Next() { ... }`: one block per directive occurrence. -/
def unmarshalSegments (lib : Lib) : Config × Nat → List (List String) → Except String (Config × Nat)
  | st, [] => .ok st
  | st, block :: rest =>
    match unmarshalBlock lib st block with
    | .ok st1 => unmarshalSegments lib st1 rest
    | .error e => .error e

/-- Go `func (m *MaxmindASN) UnmarshalCaddyfile(d *caddyfile.Dispenser) error`.
The dispenser is given by the token values its loops visit: for every successful
`d.Next()` the list of values `d.Val()` takes inside the block. -/
def UnmarshalCaddyfile (lib : Lib) (m : Config) (d : List (List String)) : Except String Config :=
  match unmarshalSegments lib (m, 0) d with
  | .ok st => .ok st.1
  | .error e => .error e

/-- Every stored fragment of `m` satisfies `P`. -/
def FragmentsAll (P : String → Prop) (m : Config) : Prop :=
  (∀ x ∈ m.AllowASOs, P x) ∧ (∀ x ∈ m.DenyASOs, P x)

/-! ## `net.SplitHostPort` and `net.ParseIP` -/

/-- Go `bytealg.IndexByteString`: index of the first occurrence, `none` for `-1`. -/
def IndexByteString : List Char → Char → Option Nat
  | [], _ => none
  | x :: xs, c => if x = c then some 0 else (IndexByteString xs c).map (· + 1)

/-- Go `bytealg.LastIndexByteString`: index of the last occurrence, `none` for `-1`. -/
def LastIndexByteString : List Char → Char → Option Nat
  | [], _ => none
  | x :: xs, c =>
    match LastIndexByteString xs c with
    | some i => some (i + 1)
    | none => if x = c then some 0 else none

/-- The `Err` texts of the `net.AddrError` values `net.SplitHostPort` returns. -/
inductive AddrError
  | missingPort
  | tooManyColons
  | missingCloseBracket
  | unexpectedOpenBracket
  | unexpectedCloseBracket
deriving DecidableEq, Repr

/-- The three results of `net.SplitHostPort`. -/
structure HostPort where
  host : String
  port : String
  err : Option AddrError
deriving DecidableEq, Repr

/-- The closure `addrErr` of `net.SplitHostPort`: `return "", "", &AddrError{...}`. -/
def addrErr (why : AddrError) : HostPort := { host := "", port := "", err := some why }

/-- The tail of `net.SplitHostPort`: the bracket checks on `hostport[j:]` and
`hostport[k:]`, then `port = hostport[i+1:]`. -/
def splitFinish (hp : List Char) (host : List Char) (i j k : Nat) : HostPort :=
  if (IndexByteString (hp.drop j) '[').isSome then addrErr .unexpectedOpenBracket
  else if (IndexByteString (hp.drop k) ']').isSome then addrErr .unexpectedCloseBracket
  else { host := String.mk host, port := String.mk (hp.drop (i + 1)), err := none }

/-- Go `net.SplitHostPort(hostport)`. -/
def SplitHostPort (hostport : String) : HostPort :=
  let hp := hostport.data
  match LastIndexByteString hp ':' with
  | none => addrErr .missingPort
  | some i =>
    if hp.head? = some '[' then
      match IndexByteString hp ']' with
      | none => addrErr .missingCloseBracket
      | some close =>
        if close + 1 = hp.length then addrErr .missingPort
        else if close + 1 = i then splitFinish hp ((hp.take close).drop 1) i 1 (close + 1)
        else if hp.get? (close + 1) = some ':' then addrErr .tooManyColons
        else addrErr .missingPort
    else
      let host := hp.take i
      if (IndexByteString host ':').isSome then addrErr .tooManyColons
      else splitFinish hp host i 0 0

/-- Go `net.IP`: the bytes of an address. -/
abbrev IP := List Nat

/-- The scan of `net.ParseIP` over the bytes of `s`: the first dot hands `s` to the
IPv4 parser, the first colon to the IPv6 parser, a percent sign before either is
rejected. -/
def parseScan (lib : Lib) (s : String) : List Char → Option IP
  | [] => none
  | c :: cs =>
    if c = '.' then lib.parseIPv4 s
    else if c = ':' then lib.parseIPv6 s
    else if c = '%' then none
    else parseScan lib s cs

/-- Go `net.ParseIP(s)`; `none` is the `nil` result. -/
def ParseIP (lib : Lib) (s : String) : Option IP := parseScan lib s s.data

/-! ## `Match` -/

/-- The database reader `m.dbInst`: `Lookup(addr, &record)` fails with an error,
succeeds without touching `record` (`none`: no entry for the address), or
succeeds and decodes the entry into `record`. -/
abbrev Reader := IP → Except String (Option Record)

/-- The effects of one `Match` call, in program order. -/
inductive Effect
  | warn (msg address : String)
  | lookup (addr : IP)
  | debugRecord (address : String) (asn : Int) (aso : String)
  | debugDenied (aso : String)
deriving DecidableEq, Repr

/-- Go `func (m *MaxmindASN) Match(r *http.Request) bool`, with `r.RemoteAddr` as
`remoteAddr`; the second component lists the log and database calls made. -/
def MatchRun (lib : Lib) (db : Reader) (m : Config) (remoteAddr : String) : Bool × List Effect :=
  if m.AllowASOs.length < 1 ∧ m.DenyASOs.length < 1 then (false, [])
  else
    let sp := SplitHostPort remoteAddr
    let log1 : List Effect :=
      match sp.err with
      | some _ => [.warn "cannot split IP address" remoteAddr]
      | none => []
    match ParseIP lib sp.host with
    | none => (false, log1 ++ [.warn "cannot parse IP address" remoteAddr])
    | some addr =>
      match db addr with
      | .error _ => (false, log1 ++ [.lookup addr, .warn "cannot lookup IP address" remoteAddr])
      | .ok found =>
        let record := found.getD Record.zero
        let log2 := log1 ++ [.lookup addr, .debugRecord remoteAddr record.ASN record.ASO]
        if !checkAllowed m (ToLower lib record.ASO) then (false, log2 ++ [.debugDenied record.ASO])
        else (true, log2)

/-- The boolean `Match` returns. -/
def Match (lib : Lib) (db : Reader) (m : Config) (remoteAddr : String) : Bool :=
  (MatchRun lib db m remoteAddr).1

/-! ## Instances for evaluating examples -/

/-- A library instance for examples: no case mapping above ASCII, and parsers that
know the two addresses used below, in their 16-byte form. -/
def exampleLib : Lib where
  toLowerCase := fun r => r
  parseIPv4 := fun s =>
    if s = "8.8.8.8" then some [0, 0, 0, 0, 0, 0, 0, 0, 0, 0, 255, 255, 8, 8, 8, 8]
    else if s = "10.0.0.1" then some [0, 0, 0, 0, 0, 0, 0, 0, 0, 0, 255, 255, 10, 0, 0, 1]
    else none
  parseIPv6 := fun _ => none

/-- A database for examples: one entry, for 8.8.8.8. -/
def exampleDb : Reader := fun addr =>
  if addr = [0, 0, 0, 0, 0, 0, 0, 0, 0, 0, 255, 255, 8, 8, 8, 8] then
    .ok (some { ASN := 15169, ASO := "GOOGLE LLC" })
  else .ok none

/-- A database for examples whose entry for 10.0.0.1 carries a number and no
organization name. -/
def exampleDbUnnamed : Reader := fun addr =>
  if addr = [0, 0, 0, 0, 0, 0, 0, 0, 0, 0, 255, 255, 10, 0, 0, 1] then
    .ok (some { ASN := 64512, ASO := "" })
  else .ok none

/-- The three option names of the Caddyfile block; any other token is a value. -/
def IsValueToken (f : String) : Prop :=
  f ≠ "db_path" ∧ f ≠ "allow_asos" ∧ f ≠ "deny_asos"


/-! ## Lemmas on the string functions -/

theorem startsWith_iff (s sub : List Char) : startsWith s sub = true ↔ sub <+: s := by
  induction s generalizing sub with
  | nil => cases sub <;> simp [startsWith]
  | cons c cs ih =>
    cases sub with
    | nil => simp [startsWith]
    | cons d ds =>
      simp only [startsWith, Bool.and_eq_true, decide_eq_true_eq, ih, List.cons_prefix_cons]
      constructor
      · rintro ⟨h1, h2⟩; exact ⟨h1.symm, h2⟩
      · rintro ⟨h1, h2⟩; exact ⟨h1.symm, h2⟩

theorem containsRunes_iff (s sub : List Char) : containsRunes s sub = true ↔ sub <:+: s := by
  induction s with
  | nil => cases sub <;> simp [containsRunes, startsWith]
  | cons c cs ih =>
    simp only [containsRunes, Bool.or_eq_true, startsWith_iff, ih, List.infix_cons_iff]

theorem Contains_iff (s sub : String) : Contains s sub = true ↔ sub.data <:+: s.data := by
  simp only [Contains, containsRunes_iff]

theorem rangeContains_iff (a : String) (l : List String) :
    rangeContains a l = true ↔ ∃ f ∈ l, f.data <:+: a.data := by
  induction l with
  | nil => simp [rangeContains]
  | cons i rest ih =>
    have step : rangeContains a (i :: rest) = (Contains a i || rangeContains a rest) := by
      cases h : Contains a i <;> simp [rangeContains, h]
    rw [step, Bool.or_eq_true, Contains_iff, ih]
    constructor
    · rintro (h | ⟨f, hf, hfa⟩)
      · exact ⟨i, List.mem_cons_self _ _, h⟩
      · exact ⟨f, List.mem_cons_of_mem _ hf, hfa⟩
    · rintro ⟨f, hf, hfa⟩
      rcases List.mem_cons.1 hf with rfl | hf
      · exact Or.inl hfa
      · exact Or.inr ⟨f, hf, hfa⟩

theorem ToLower_eq_empty (lib : Lib) (s : String) : ToLower lib s = "" ↔ s = "" := by
  cases s with
  | mk d =>
    cases d with
    | nil => simp [ToLower]
    | cons c cs =>
      constructor
      · intro h
        have := congrArg String.data h
        simp [ToLower] at this
      · intro h
        have := congrArg String.data h
        simp at this

theorem rangeContains_congr (a : String) (l l2 : List String) (h : ∀ x, x ∈ l ↔ x ∈ l2) :
    rangeContains a l = rangeContains a l2 := by
  have key : rangeContains a l = true ↔ rangeContains a l2 = true := by
    rw [rangeContains_iff, rangeContains_iff]
    constructor
    · rintro ⟨f, hf, hfa⟩; exact ⟨f, (h f).1 hf, hfa⟩
    · rintro ⟨f, hf, hfa⟩; exact ⟨f, (h f).2 hf, hfa⟩
  cases h1 : rangeContains a l <;> cases h2 : rangeContains a l2 <;> simp_all

theorem length_pos_congr (l l2 : List String) (h : ∀ x, x ∈ l ↔ x ∈ l2) :
    l.length > 0 ↔ l2.length > 0 := by
  constructor
  · intro hl
    obtain ⟨x, hx⟩ := List.exists_mem_of_length_pos hl
    exact List.length_pos_of_mem ((h x).1 hx)
  · intro hl
    obtain ⟨x, hx⟩ := List.exists_mem_of_length_pos hl
    exact List.length_pos_of_mem ((h x).2 hx)

theorem checkAllowed_empty (m : Config) : checkAllowed m "" = true := by
  simp [checkAllowed]

/-! ## The policy evaluator: `checkAllowed` -/

/-- C1 (as amended): for every non-empty organization string `s`, every allow list and
every deny list containing a fragment that is a substring of the lowercased `s`,
`checkAllowed` applied to the lowercased `s` returns false. -/
theorem deny_hit_rejects (lib : Lib) (m : Config) (s : String) (hs : s ≠ "")
    (hit : ∃ f ∈ m.DenyASOs, f.data <:+: (ToLower lib s).data) :
    checkAllowed m (ToLower lib s) = false := by
  have hne : ToLower lib s ≠ "" := fun h => hs ((ToLower_eq_empty lib s).1 h)
  have hlen : m.DenyASOs.length > 0 := by
    obtain ⟨f, hf, _⟩ := hit
    exact List.length_pos_of_mem hf
  have hr : rangeContains (ToLower lib s) m.DenyASOs = true := (rangeContains_iff _ _).2 hit
  simp [checkAllowed, hne, hlen, hr]

/-- Witness of C1 as amended: deny list with the fragment spam-isp, organization
Spam-ISP Networks. -/
theorem deny_hit_rejects_witness :
    checkAllowed { DbPath := "", AllowASOs := ["spam"], DenyASOs := ["spam-isp"] }
      (ToLower exampleLib "Spam-ISP Networks") = false :=
  deny_hit_rejects exampleLib { DbPath := "", AllowASOs := ["spam"], DenyASOs := ["spam-isp"] }
    "Spam-ISP Networks" (by decide)
    ⟨"spam-isp", by decide, (containsRunes_iff _ _).1 (by decide)⟩

/-- Counterexample to C1 as stated: the empty organization with a deny list holding
the empty fragment, which is a substring of the lowercased organization, is admitted. -/
theorem deny_hit_empty_organization_admitted :
    (∃ f ∈ [""], f.data <:+: (ToLower exampleLib "").data) ∧
    checkAllowed { DbPath := "", AllowASOs := [], DenyASOs := [""] }
      (ToLower exampleLib "") = true :=
  ⟨⟨"", by decide, (containsRunes_iff _ _).1 (by decide)⟩, by decide⟩

/-- C2: for every allow list and every deny list, also ones holding the empty
fragment, `checkAllowed` applied to the empty organization string returns true. -/
theorem empty_organization_admitted (m : Config) : checkAllowed m "" = true :=
  checkAllowed_empty m

/-- C4: with an empty deny list, for every organization string `s` and every allow
list containing a fragment that is a substring of the lowercased `s`, `checkAllowed`
applied to the lowercased `s` returns true. -/
theorem allow_hit_admits (lib : Lib) (m : Config) (s : String) (hd : m.DenyASOs = [])
    (hit : ∃ f ∈ m.AllowASOs, f.data <:+: (ToLower lib s).data) :
    checkAllowed m (ToLower lib s) = true := by
  have hr : rangeContains (ToLower lib s) m.AllowASOs = true := (rangeContains_iff _ _).2 hit
  simp [checkAllowed, hd, hr]

/-- Witness of C4: allow list with the fragment cloud, organization Acme Cloud
Services. -/
theorem allow_hit_admits_witness :
    checkAllowed { DbPath := "", AllowASOs := ["cloud"], DenyASOs := [] }
      (ToLower exampleLib "Acme Cloud Services") = true :=
  allow_hit_admits exampleLib { DbPath := "", AllowASOs := ["cloud"], DenyASOs := [] }
    "Acme Cloud Services" rfl
    ⟨"cloud", by decide, (containsRunes_iff _ _).1 (by decide)⟩

/-- C5 (as amended): with an empty deny list, for every non-empty organization string
`s` and every non-empty allow list none of whose fragments is a substring of the
lowercased `s`, `checkAllowed` applied to the lowercased `s` returns false. -/
theorem allow_miss_rejects (lib : Lib) (m : Config) (s : String) (hs : s ≠ "")
    (hd : m.DenyASOs = []) (ha : m.AllowASOs ≠ [])
    (miss : ∀ f ∈ m.AllowASOs, ¬ f.data <:+: (ToLower lib s).data) :
    checkAllowed m (ToLower lib s) = false := by
  have hne : ToLower lib s ≠ "" := fun h => hs ((ToLower_eq_empty lib s).1 h)
  have hlen : m.AllowASOs.length > 0 := List.length_pos.2 ha
  have hr : rangeContains (ToLower lib s) m.AllowASOs = false := by
    cases h : rangeContains (ToLower lib s) m.AllowASOs
    · rfl
    · obtain ⟨f, hf, hfa⟩ := (rangeContains_iff _ _).1 h
      exact absurd hfa (miss f hf)
  simp [checkAllowed, hne, hd, hlen, hr]

/-- Witness of C5 as amended: allow list with the fragment cloud, organization Acme
Hosting. -/
theorem allow_miss_rejects_witness :
    checkAllowed { DbPath := "", AllowASOs := ["cloud"], DenyASOs := [] }
      (ToLower exampleLib "Acme Hosting") = false :=
  allow_miss_rejects exampleLib { DbPath := "", AllowASOs := ["cloud"], DenyASOs := [] }
    "Acme Hosting" (by decide) rfl (by decide)
    (fun f hf hfa => by
      rw [List.mem_singleton.1 hf] at hfa
      exact absurd ((containsRunes_iff _ _).2 hfa) (by decide))

/-- Counterexample to C5 as stated: with an empty deny list and the non-empty allow
list holding only the fragment google, which is no substring of the lowercased empty
organization, the empty organization is admitted. -/
theorem allow_miss_empty_organization_admitted :
    (["google"] : List String) ≠ [] ∧
    (∀ f ∈ ["google"], ¬ String.data f <:+: (ToLower exampleLib "").data) ∧
    checkAllowed { DbPath := "", AllowASOs := ["google"], DenyASOs := [] }
      (ToLower exampleLib "") = true :=
  ⟨by decide,
   fun f hf hfa => by
     rw [List.mem_singleton.1 hf] at hfa
     exact absurd ((containsRunes_iff _ _).2 hfa) (by decide),
   by decide⟩

/-- C10: for every organization string, `checkAllowed` gives the same result for two
configurations whose allow lists have the same elements and whose deny lists have the
same elements, whatever the order and the multiplicity of the fragments. -/
theorem order_and_duplicates_irrelevant (m m2 : Config) (s : String)
    (hallow : ∀ x, x ∈ m.AllowASOs ↔ x ∈ m2.AllowASOs)
    (hdeny : ∀ x, x ∈ m.DenyASOs ↔ x ∈ m2.DenyASOs) :
    checkAllowed m s = checkAllowed m2 s := by
  unfold checkAllowed
  rw [rangeContains_congr s _ _ hallow, rangeContains_congr s _ _ hdeny]
  simp only [length_pos_congr _ _ hallow, length_pos_congr _ _ hdeny]

/-- Witness of C10: a permuted allow list with a repeated fragment, a deny list with a
repeated fragment. -/
theorem order_and_duplicates_irrelevant_witness :
    checkAllowed { DbPath := "", AllowASOs := ["cloud", "acme"], DenyASOs := ["spam"] }
        "acme cloud services" =
      checkAllowed ⟨"", ["acme", "cloud", "acme"], ["spam", "spam"]⟩ "acme cloud services" :=
  order_and_duplicates_irrelevant
    { DbPath := "", AllowASOs := ["cloud", "acme"], DenyASOs := ["spam"] }
    { DbPath := "", AllowASOs := ["acme", "cloud", "acme"], DenyASOs := ["spam", "spam"] }
    "acme cloud services"
    (fun x => by simp only [List.mem_cons, List.mem_singleton, List.not_mem_nil]; tauto)
    (fun x => by simp only [List.mem_cons, List.mem_singleton, List.not_mem_nil]; tauto)

/-! ## The request entry point: `Match` -/

theorem splitFinish_err_host (hp host : List Char) (i j k : Nat)
    (h : (splitFinish hp host i j k).err ≠ none) : (splitFinish hp host i j k).host = "" := by
  unfold splitFinish at h ⊢
  split
  · rfl
  · split
    · rfl
    · rename_i h1 h2
      simp [h1, h2] at h

theorem SplitHostPort_err_host (raw : String) (h : (SplitHostPort raw).err ≠ none) :
    (SplitHostPort raw).host = "" := by
  unfold SplitHostPort at h ⊢
  simp only at h ⊢
  split
  · rfl
  · rename_i i hi
    simp only [hi] at h
    split
    · rename_i hb
      simp only [hb, if_true] at h
      split
      · rfl
      · rename_i close hc
        simp only [hc] at h
        split
        · rfl
        · split
          · rename_i h1 h2
            rw [if_neg h1, if_pos h2] at h
            exact splitFinish_err_host _ _ _ _ _ h
          · split <;> rfl
    · rename_i hb
      simp only [hb, if_false] at h
      split
      · rfl
      · rename_i h1
        simp only [h1] at h
        exact splitFinish_err_host _ _ _ _ _ h

theorem ParseIP_empty (lib : Lib) : ParseIP lib "" = none := rfl

theorem Match_parse_failure (lib : Lib) (db : Reader) (m : Config) (raw : String)
    (h : ParseIP lib (SplitHostPort raw).host = none) : Match lib db m raw = false := by
  unfold Match MatchRun
  split
  · rfl
  · simp only [h]

theorem Match_lookup_failure (lib : Lib) (db : Reader) (m : Config) (raw : String) (addr : IP)
    (e : String) (h : ParseIP lib (SplitHostPort raw).host = some addr)
    (he : db addr = .error e) : Match lib db m raw = false := by
  unfold Match MatchRun
  split
  · rfl
  · simp only [h, he]

/-- C3: when both lists are empty, `Match` returns false for every raw address,
whatever the library tables and the database are, and performs no effect: neither a
log entry nor a lookup precedes the return. -/
theorem unconfigured_rejects (lib : Lib) (db : Reader) (dbPath raw : String) :
    MatchRun lib db { DbPath := dbPath, AllowASOs := [], DenyASOs := [] } raw = (false, []) ∧
    Match lib db { DbPath := dbPath, AllowASOs := [], DenyASOs := [] } raw = false := by
  simp [Match, MatchRun]

/-- C6: for every configuration and every raw address, if parsing the split-off host
as an IP address fails, or the database lookup returns an error, `Match` returns
false. -/
theorem request_errors_reject (lib : Lib) (db : Reader) (m : Config) (raw : String)
    (h : ParseIP lib (SplitHostPort raw).host = none ∨
      ∃ addr e, ParseIP lib (SplitHostPort raw).host = some addr ∧ db addr = .error e) :
    Match lib db m raw = false := by
  rcases h with h | ⟨addr, e, h, he⟩
  · exact Match_parse_failure lib db m raw h
  · exact Match_lookup_failure lib db m raw addr e h he

/-- Witness of C6: the raw address not-an-ip has no host that parses. -/
theorem request_errors_reject_witness :
    ParseIP exampleLib (SplitHostPort "not-an-ip").host = none ∧
    Match exampleLib exampleDb { DbPath := "", AllowASOs := ["google"], DenyASOs := [] }
      "not-an-ip" = false :=
  ⟨by decide,
   request_errors_reject exampleLib exampleDb
     { DbPath := "", AllowASOs := ["google"], DenyASOs := [] } "not-an-ip" (Or.inl (by decide))⟩

/-- C7: for every configuration with a non-empty allow or deny list and every raw
address whose host parses and whose lookup succeeds without finding a record, `Match`
returns true. -/
theorem unresolved_admitted (lib : Lib) (db : Reader) (m : Config) (raw : String) (addr : IP)
    (hcfg : m.AllowASOs ≠ [] ∨ m.DenyASOs ≠ [])
    (hparse : ParseIP lib (SplitHostPort raw).host = some addr)
    (hdb : db addr = .ok none) :
    Match lib db m raw = true := by
  have hguard : ¬ (m.AllowASOs.length < 1 ∧ m.DenyASOs.length < 1) := by
    rintro ⟨h1, h2⟩
    rcases hcfg with h | h
    · exact h (List.length_eq_zero.1 (by omega))
    · exact h (List.length_eq_zero.1 (by omega))
  have hlow : ToLower lib Record.zero.ASO = "" := rfl
  unfold Match MatchRun
  rw [if_neg hguard]
  simp [hparse, hdb, hlow, checkAllowed_empty]

/-- Witness of C7: the address 10.0.0.1 parses and has no entry in the example
database. -/
theorem unresolved_admitted_witness :
    Match exampleLib exampleDb { DbPath := "", AllowASOs := [], DenyASOs := ["google"] }
      "10.0.0.1:5555" = true :=
  unresolved_admitted exampleLib exampleDb
    { DbPath := "", AllowASOs := [], DenyASOs := ["google"] } "10.0.0.1:5555"
    [0, 0, 0, 0, 0, 0, 0, 0, 0, 0, 255, 255, 10, 0, 0, 1]
    (Or.inr (by decide)) (by decide) rfl

/-- C8 (what the code does): whenever `net.SplitHostPort` fails on the raw address,
`Match` returns false, whatever the lists, the parsers and the database are: the host
handed to `net.ParseIP` is the empty string, not the raw address. -/
theorem split_failure_rejects (lib : Lib) (db : Reader) (m : Config) (raw : String)
    (h : (SplitHostPort raw).err ≠ none) :
    Match lib db m raw = false := by
  have hhost : (SplitHostPort raw).host = "" := SplitHostPort_err_host raw h
  exact Match_parse_failure lib db m raw (by rw [hhost]; exact ParseIP_empty lib)

/-- Witness of C8: the bare address 8.8.8.8 is rejected under an allow list that
admits the organization of 8.8.8.8, which the same address with a port shows. -/
theorem split_failure_rejects_witness :
    (SplitHostPort "8.8.8.8").err ≠ none ∧
    Match exampleLib exampleDb { DbPath := "", AllowASOs := ["google"], DenyASOs := [] }
      "8.8.8.8" = false ∧
    Match exampleLib exampleDb { DbPath := "", AllowASOs := ["google"], DenyASOs := [] }
      "8.8.8.8:443" = true :=
  ⟨by decide,
   split_failure_rejects exampleLib exampleDb
     { DbPath := "", AllowASOs := ["google"], DenyASOs := [] } "8.8.8.8" (by decide),
   by decide⟩

/-! ## Configuration: `UnmarshalCaddyfile` -/

theorem unmarshalVal_fragments (lib : Lib) (P : String → Prop) (st st1 : Config × Nat)
    (val : String) (hm : FragmentsAll P st.1) (hval : P (ToLower lib val))
    (h : unmarshalVal lib st val = .ok st1) : FragmentsAll P st1.1 := by
  unfold unmarshalVal at h
  split_ifs at h
  · cases h; exact hm
  · cases h; exact hm
  · cases h; exact hm
  · split at h
    · cases h; exact hm
    · cases h
      refine ⟨fun x hx => ?_, hm.2⟩
      rcases List.mem_append.1 hx with hx | hx
      · exact hm.1 x hx
      · rw [List.mem_singleton.1 hx]; exact hval
    · cases h
      refine ⟨hm.1, fun x hx => ?_⟩
      rcases List.mem_append.1 hx with hx | hx
      · exact hm.2 x hx
      · rw [List.mem_singleton.1 hx]; exact hval
    · cases h

theorem unmarshalBlock_fragments (lib : Lib) (P : String → Prop) (block : List String) :
    ∀ (st st1 : Config × Nat), FragmentsAll P st.1 → (∀ tok ∈ block, P (ToLower lib tok)) →
      unmarshalBlock lib st block = .ok st1 → FragmentsAll P st1.1 := by
  induction block with
  | nil =>
    intro st st1 hm _ h
    simp only [unmarshalBlock] at h
    cases h; exact hm
  | cons val rest ih =>
    intro st st1 hm htok h
    simp only [unmarshalBlock] at h
    split at h
    · rename_i st2 h2
      exact ih st2 st1
        (unmarshalVal_fragments lib P st st2 val hm (htok val (List.mem_cons_self _ _)) h2)
        (fun tok ht => htok tok (List.mem_cons_of_mem _ ht)) h
    · cases h

theorem unmarshalSegments_fragments (lib : Lib) (P : String → Prop) (d : List (List String)) :
    ∀ (st st1 : Config × Nat), FragmentsAll P st.1 →
      (∀ block ∈ d, ∀ tok ∈ block, P (ToLower lib tok)) →
      unmarshalSegments lib st d = .ok st1 → FragmentsAll P st1.1 := by
  induction d with
  | nil =>
    intro st st1 hm _ h
    simp only [unmarshalSegments] at h
    cases h; exact hm
  | cons block rest ih =>
    intro st st1 hm htok h
    simp only [unmarshalSegments] at h
    split at h
    · rename_i st2 h2
      exact ih st2 st1
        (unmarshalBlock_fragments lib P block st st2 hm (htok block (List.mem_cons_self _ _)) h2)
        (fun b hb => htok b (List.mem_cons_of_mem _ hb)) h
    · cases h

theorem UnmarshalCaddyfile_fragments (lib : Lib) (d : List (List String)) (m : Config)
    (h : UnmarshalCaddyfile lib Config.zero d = .ok m) :
    FragmentsAll (fun x => ∃ block ∈ d, ∃ tok ∈ block, x = ToLower lib tok) m := by
  unfold UnmarshalCaddyfile at h
  split at h
  · rename_i st hst
    cases h
    refine unmarshalSegments_fragments lib _ d (Config.zero, 0) st ?_ ?_ hst
    · exact ⟨fun x hx => by simp [Config.zero] at hx, fun x hx => by simp [Config.zero] at hx⟩
    · intro block hb tok ht
      exact ⟨block, hb, tok, ht, rfl⟩
  · cases h

theorem Match_of_record (lib : Lib) (db : Reader) (m : Config) (raw : String) (addr : IP)
    (r : Record) (hcfg : ¬ (m.AllowASOs.length < 1 ∧ m.DenyASOs.length < 1))
    (hparse : ParseIP lib (SplitHostPort raw).host = some addr)
    (hdb : db addr = .ok (some r)) :
    Match lib db m raw = checkAllowed m (ToLower lib r.ASO) := by
  unfold Match MatchRun
  rw [if_neg hcfg]
  simp only [hparse, hdb, Option.getD_some]
  cases checkAllowed m (ToLower lib r.ASO) <;> simp

theorem unmarshalBlock_append (lib : Lib) (a b : List String) :
    ∀ st : Config × Nat, unmarshalBlock lib st (a ++ b) =
      match unmarshalBlock lib st a with
      | .ok st1 => unmarshalBlock lib st1 b
      | .error e => .error e := by
  induction a with
  | nil => intro st; simp [unmarshalBlock]
  | cons val rest ih =>
    intro st
    rw [List.cons_append]
    simp only [unmarshalBlock]
    cases h : unmarshalVal lib st val with
    | ok st1 => exact ih st1
    | error e => rfl

theorem unmarshalBlock_allow_run (lib : Lib) (fs : List String) :
    ∀ m : Config, (∀ f ∈ fs, IsValueToken f) →
      unmarshalBlock lib (m, 2) fs =
        .ok ({ m with AllowASOs := m.AllowASOs ++ fs.map (ToLower lib) }, 2) := by
  induction fs with
  | nil => intro m _; simp [unmarshalBlock]
  | cons f rest ih =>
    intro m h
    obtain ⟨h1, h2, h3⟩ := h f (List.mem_cons_self _ _)
    have hstep : unmarshalVal lib (m, 2) f =
        .ok ({ m with AllowASOs := m.AllowASOs ++ [ToLower lib f] }, 2) := by
      simp [unmarshalVal, h1, h2, h3]
    simp only [unmarshalBlock, hstep]
    rw [ih _ (fun g hg => h g (List.mem_cons_of_mem _ hg))]
    simp [List.append_assoc]

theorem unmarshalBlock_deny_run (lib : Lib) (fs : List String) :
    ∀ m : Config, (∀ f ∈ fs, IsValueToken f) →
      unmarshalBlock lib (m, 3) fs =
        .ok ({ m with DenyASOs := m.DenyASOs ++ fs.map (ToLower lib) }, 3) := by
  induction fs with
  | nil => intro m _; simp [unmarshalBlock]
  | cons f rest ih =>
    intro m h
    obtain ⟨h1, h2, h3⟩ := h f (List.mem_cons_self _ _)
    have hstep : unmarshalVal lib (m, 3) f =
        .ok ({ m with DenyASOs := m.DenyASOs ++ [ToLower lib f] }, 3) := by
      simp [unmarshalVal, h1, h2, h3]
    simp only [unmarshalBlock, hstep]
    rw [ih _ (fun g hg => h g (List.mem_cons_of_mem _ hg))]
    simp [List.append_assoc]

theorem UnmarshalCaddyfile_single (lib : Lib) (m0 : Config) (block : List String) :
    UnmarshalCaddyfile lib m0 [block] =
      match unmarshalBlock lib (m0, 0) block with
      | .ok st => .ok st.1
      | .error e => .error e := by
  unfold UnmarshalCaddyfile
  simp only [unmarshalSegments]
  cases unmarshalBlock lib (m0, 0) block <;> rfl

theorem UnmarshalCaddyfile_single_ok (lib : Lib) (m0 m1 : Config) (block : List String)
    (h : UnmarshalCaddyfile lib m0 [block] = .ok m1) :
    ∃ c, unmarshalBlock lib (m0, 0) block = .ok (m1, c) := by
  rw [UnmarshalCaddyfile_single] at h
  cases hb : unmarshalBlock lib (m0, 0) block with
  | ok st =>
    rw [hb] at h
    simp only [Except.ok.injEq] at h
    exact ⟨st.2, by rw [← h]⟩
  | error e =>
    rw [hb] at h
    cases h

theorem UnmarshalCaddyfile_allow_after (lib : Lib) (fa pre : List String) (m0 m1 : Config)
    (hfa : ∀ f ∈ fa, IsValueToken f) (h : UnmarshalCaddyfile lib m0 [pre] = .ok m1) :
    UnmarshalCaddyfile lib m0 [pre ++ "allow_asos" :: fa] =
      .ok { m1 with AllowASOs := m1.AllowASOs ++ fa.map (ToLower lib) } := by
  obtain ⟨c, hc⟩ := UnmarshalCaddyfile_single_ok lib m0 m1 pre h
  have hkey : unmarshalVal lib (m1, c) "allow_asos" = .ok (m1, 2) := by
    simp [unmarshalVal]
  rw [UnmarshalCaddyfile_single, unmarshalBlock_append, hc]
  simp only [unmarshalBlock, hkey, unmarshalBlock_allow_run lib fa m1 hfa]

theorem UnmarshalCaddyfile_deny_after (lib : Lib) (fd pre : List String) (m0 m1 : Config)
    (hfd : ∀ f ∈ fd, IsValueToken f) (h : UnmarshalCaddyfile lib m0 [pre] = .ok m1) :
    UnmarshalCaddyfile lib m0 [pre ++ "deny_asos" :: fd] =
      .ok { m1 with DenyASOs := m1.DenyASOs ++ fd.map (ToLower lib) } := by
  obtain ⟨c, hc⟩ := UnmarshalCaddyfile_single_ok lib m0 m1 pre h
  have hkey : unmarshalVal lib (m1, c) "deny_asos" = .ok (m1, 3) := by
    simp [unmarshalVal]
  rw [UnmarshalCaddyfile_single, unmarshalBlock_append, hc]
  simp only [unmarshalBlock, hkey, unmarshalBlock_deny_run lib fd m1 hfd]

theorem rangeContains_map_iff (lib : Lib) (a : String) (fs : List String) :
    rangeContains a (fs.map (ToLower lib)) = true ↔
      ∃ f ∈ fs, (ToLower lib f).data <:+: a.data := by
  rw [rangeContains_iff]
  constructor
  · rintro ⟨g, hg, hga⟩
    obtain ⟨f, hf, rfl⟩ := List.mem_map.1 hg
    exact ⟨f, hf, hga⟩
  · rintro ⟨f, hf, hfa⟩
    exact ⟨ToLower lib f, List.mem_map.2 ⟨f, hf, rfl⟩, hfa⟩

/-- C9 (as amended): every token following `allow_asos` or `deny_asos` in the
Caddyfile (any token other than the three option names), after whatever precedes it
in the block, is stored as its lowercase form, in order, and nothing but lowercased
tokens is stored; and on the configuration read from the allow tokens `fa` and the
deny tokens `fd`, `Match` on an address resolved to a record with a non-empty
organization `s`, in any letter case, rejects exactly when the lowercase form of
some deny token is a substring of the lowercased `s` (deny list present), and
admits exactly when the lowercase form of some allow token is a substring of the
lowercased `s` (deny list absent, allow list present). -/
theorem case_insensitive_matching (lib : Lib) (fa fd : List String)
    (hfa : ∀ f ∈ fa, IsValueToken f) (hfd : ∀ f ∈ fd, IsValueToken f) :
    (∀ (m0 m1 : Config) (pre : List String), UnmarshalCaddyfile lib m0 [pre] = .ok m1 →
      UnmarshalCaddyfile lib m0 [pre ++ "allow_asos" :: fa] =
        .ok { m1 with AllowASOs := m1.AllowASOs ++ fa.map (ToLower lib) }) ∧
    (∀ (m0 m1 : Config) (pre : List String), UnmarshalCaddyfile lib m0 [pre] = .ok m1 →
      UnmarshalCaddyfile lib m0 [pre ++ "deny_asos" :: fd] =
        .ok { m1 with DenyASOs := m1.DenyASOs ++ fd.map (ToLower lib) }) ∧
    (∀ (d : List (List String)) (m : Config), UnmarshalCaddyfile lib Config.zero d = .ok m →
      ∀ x ∈ m.AllowASOs ++ m.DenyASOs, ∃ block ∈ d, ∃ tok ∈ block, x = ToLower lib tok) ∧
    ∃ m : Config,
      UnmarshalCaddyfile lib Config.zero [("allow_asos" :: fa) ++ "deny_asos" :: fd] = .ok m ∧
      m.AllowASOs = fa.map (ToLower lib) ∧ m.DenyASOs = fd.map (ToLower lib) ∧
      ∀ (db : Reader) (raw : String) (addr : IP) (r : Record),
        ParseIP lib (SplitHostPort raw).host = some addr → db addr = .ok (some r) →
        r.ASO ≠ "" →
        (fd ≠ [] → (Match lib db m raw = false ↔
          ∃ f ∈ fd, (ToLower lib f).data <:+: (ToLower lib r.ASO).data)) ∧
        (fd = [] → fa ≠ [] → (Match lib db m raw = true ↔
          ∃ f ∈ fa, (ToLower lib f).data <:+: (ToLower lib r.ASO).data)) := by
  have hallow : UnmarshalCaddyfile lib Config.zero [[] ++ "allow_asos" :: fa] =
      .ok { Config.zero with AllowASOs := Config.zero.AllowASOs ++ fa.map (ToLower lib) } :=
    UnmarshalCaddyfile_allow_after lib fa [] Config.zero Config.zero hfa rfl
  have hboth := UnmarshalCaddyfile_deny_after lib fd ([] ++ "allow_asos" :: fa) Config.zero _
    hfd hallow
  refine ⟨fun m0 m1 pre h => UnmarshalCaddyfile_allow_after lib fa pre m0 m1 hfa h,
    fun m0 m1 pre h => UnmarshalCaddyfile_deny_after lib fd pre m0 m1 hfd h, ?_,
    ⟨_, by simpa using hboth, by simp [Config.zero], by simp [Config.zero], ?_⟩⟩
  · intro d m hm x hx
    have hall := UnmarshalCaddyfile_fragments lib d m hm
    rcases List.mem_append.1 hx with hx | hx
    · exact hall.1 x hx
    · exact hall.2 x hx
  · intro db raw addr r hparse hdb hr
    have hne : ToLower lib r.ASO ≠ "" := fun h => hr ((ToLower_eq_empty lib r.ASO).1 h)
    constructor
    · intro hd
      have hlen : (fd.map (ToLower lib)).length > 0 := by
        rw [List.length_map]; exact List.length_pos.2 hd
      rw [Match_of_record lib db _ raw addr r (by simp [Config.zero, hd]) hparse hdb,
        ← rangeContains_map_iff]
      cases hc : rangeContains (ToLower lib r.ASO) (fd.map (ToLower lib)) <;>
        simp [checkAllowed, Config.zero, hne, hd, hc]
    · intro hd ha
      subst hd
      rw [Match_of_record lib db _ raw addr r (by simp [Config.zero, ha]) hparse hdb,
        ← rangeContains_map_iff]
      cases hc : rangeContains (ToLower lib r.ASO) (fa.map (ToLower lib)) <;>
        simp [checkAllowed, Config.zero, hne, ha, hc]

/-- Witness of C9 as amended: the Caddyfile tokens GooGle and Amazon are stored as
google and amazon, and the address resolved to GOOGLE LLC is admitted under that
allow list. -/
theorem case_insensitive_matching_witness :
    ∃ m : Config,
      UnmarshalCaddyfile exampleLib Config.zero [["allow_asos", "GooGle", "Amazon", "deny_asos"]]
        = .ok m ∧
      m.AllowASOs = ["google", "amazon"] ∧ m.DenyASOs = [] ∧
      Match exampleLib exampleDb m "8.8.8.8:443" = true := by
  obtain ⟨_, _, _, m, hm, ha, hd, hM⟩ :=
    case_insensitive_matching exampleLib ["GooGle", "Amazon"] []
      (by simp [IsValueToken]) (by simp)
  refine ⟨m, hm, by rw [ha]; decide, by rw [hd]; rfl, ?_⟩
  refine ((hM exampleDb "8.8.8.8:443" [0, 0, 0, 0, 0, 0, 0, 0, 0, 0, 255, 255, 8, 8, 8, 8]
    { ASN := 15169, ASO := "GOOGLE LLC" } (by decide) rfl (by decide)).2 rfl
    (by decide)).2 ⟨"GooGle", by decide, (containsRunes_iff _ _).1 (by decide)⟩

/-- Counterexample to C9 as stated: on an address resolved to a record with the empty
organization, the allow token google is no substring of the lowercased organization
and yet `Match` admits, and the deny token that is the empty string is a substring of
it and yet `Match` does not reject. -/
theorem empty_organization_never_tested :
    UnmarshalCaddyfile exampleLib Config.zero [["allow_asos", "google"]]
      = .ok { DbPath := "", AllowASOs := ["google"], DenyASOs := [] } ∧
    UnmarshalCaddyfile exampleLib Config.zero [["deny_asos", ""]]
      = .ok { DbPath := "", AllowASOs := [], DenyASOs := [""] } ∧
    ParseIP exampleLib (SplitHostPort "10.0.0.1:5555").host
      = some [0, 0, 0, 0, 0, 0, 0, 0, 0, 0, 255, 255, 10, 0, 0, 1] ∧
    exampleDbUnnamed [0, 0, 0, 0, 0, 0, 0, 0, 0, 0, 255, 255, 10, 0, 0, 1]
      = .ok (some { ASN := 64512, ASO := "" }) ∧
    ¬ (ToLower exampleLib "google").data <:+: (ToLower exampleLib "").data ∧
    Match exampleLib exampleDbUnnamed { DbPath := "", AllowASOs := ["google"], DenyASOs := [] }
      "10.0.0.1:5555" = true ∧
    (ToLower exampleLib "").data <:+: (ToLower exampleLib "").data ∧
    Match exampleLib exampleDbUnnamed { DbPath := "", AllowASOs := [], DenyASOs := [""] }
      "10.0.0.1:5555" = true :=
  ⟨rfl, rfl, by decide, rfl,
   fun h => absurd ((containsRunes_iff _ _).2 h) (by decide), by decide,
   (containsRunes_iff _ _).1 (by decide), by decide⟩

end MaxmindASN
